import Mathlib

/-!
# Verification of the search-campaign controller of MS-Rewards-Farmer

Shallow embedding of `src/searches.py` (class `Searches`): the per-campaign
runner `bingSearches`, the per-term retry loop `bingSearch`, the result
extractor `extractSearchResults` (with its URL unwrapping, blocklist and
dedup logic), the term-rotation ledger `getCryptoList`, and the seen-URL
store loader `_load_seen_urls`.

External effects (the webdriver, the clock, the random source, the file
system) are modelled as explicit parameters: a run of the campaign is a
fold over an injected sequence of per-search outcomes, the randomness of
term selection is an injected choice function, and the backing store of
the URL set is an explicit file-system value.
-/

set_option autoImplicit false

namespace Searches

/-! ## The campaign runner `bingSearches` (searches.py lines 474-543)

Each iteration of the `for word in search_terms` loop calls
`self.bingSearch(word)`, which either returns a point total or raises.
We model one iteration's observable outcome and fold the loop body over a
list of such outcomes.  The loop body's state is the pair of mutable
locals `pointsCounter` and `attempt`; we additionally count the
`self.webdriver.refresh()` calls so recovery actions are observable. -/

/-- Outcome of one `self.bingSearch(word)` call as seen by the caller:
either a returned point total, or a raised exception. -/
inductive SearchOutcome where
  | ok (points : Nat)
  | err
  deriving DecidableEq, Repr

/-- The loop-carried state of `bingSearches`: the mutable locals
`pointsCounter` and `attempt`, plus a count of the page refreshes the loop
has triggered (the observable recovery actions). -/
structure RunnerState where
  pointsCounter : Nat
  attempt : Nat
  refreshes : Nat
  deriving DecidableEq, Repr

/-- One iteration of the `for word in search_terms` loop of `bingSearches`
(searches.py lines 503-529), as a function of the injected outcome of
`self.bingSearch(word)`.

* on a returned total: in test mode the points check is skipped entirely;
  otherwise a strictly larger total replaces `pointsCounter` and resets
  `attempt`, and a non-increasing total increments `attempt`, refreshing
  the page and zeroing `attempt` when it reaches 2;
* on an exception: `attempt` is incremented, refreshing and zeroing at 2,
  and the loop continues (test mode does not change this branch). -/
def bingStep (testMode : Bool) (s : RunnerState) (o : SearchOutcome) : RunnerState :=
  match o with
  | .ok p =>
      if testMode then s
      else if p > s.pointsCounter then
        { s with pointsCounter := p, attempt := 0 }
      else
        let a := s.attempt + 1
        if a ≥ 2 then { s with attempt := 0, refreshes := s.refreshes + 1 }
        else { s with attempt := a }
  | .err =>
      let a := s.attempt + 1
      if a ≥ 2 then { s with attempt := 0, refreshes := s.refreshes + 1 }
      else { s with attempt := a }

/-- The whole `bingSearches` loop: starting from the argument
`pointsCounter` with `attempt = 0` (searches.py lines 501-502), fold the
loop body over the outcomes of the successive searches.  The function's
return value is the final `pointsCounter` field; an abort by the outer
`except` clause after a prefix of the searches corresponds to running the
model on that prefix. -/
def bingSearchesRun (testMode : Bool) (outcomes : List SearchOutcome)
    (pointsCounter : Nat) : RunnerState :=
  outcomes.foldl (bingStep testMode) ⟨pointsCounter, 0, 0⟩

/-- A "no-progress" event for the runner in its current state: the search
raised, or it returned a total not strictly greater than the tracked
`pointsCounter`. -/
def noProgress (s : RunnerState) (o : SearchOutcome) : Bool :=
  match o with
  | .ok p => decide (p ≤ s.pointsCounter)
  | .err => true

/-- Shape equality of outcome sequences: same length and, position by
position, exceptions in the same places; returned point totals are free
to differ. -/
def sameShape : List SearchOutcome → List SearchOutcome → Prop :=
  List.Forall₂ (fun a b =>
    match a, b with
    | .ok _, .ok _ => True
    | .err, .err => True
    | _, _ => False)

/-! ### Basic step lemmas -/

theorem bingStep_pointsCounter_mono (testMode : Bool) (s : RunnerState)
    (o : SearchOutcome) : s.pointsCounter ≤ (bingStep testMode s o).pointsCounter := by
  cases o with
  | ok p =>
      simp only [bingStep]
      split
      · exact Nat.le_refl _
      · split
        · exact Nat.le_of_lt (by assumption)
        · split <;> exact Nat.le_refl _
  | err =>
      simp only [bingStep]
      split <;> exact Nat.le_refl _

theorem bingStep_attempt_le_one (testMode : Bool) (s : RunnerState)
    (o : SearchOutcome) (h : s.attempt ≤ 1) : (bingStep testMode s o).attempt ≤ 1 := by
  cases o with
  | ok p =>
      simp only [bingStep]
      split
      · exact h
      · split
        · exact Nat.zero_le 1
        · split
          · exact Nat.zero_le 1
          · next hlt => exact Nat.le_of_lt_succ (Nat.lt_of_not_le hlt)
  | err =>
      simp only [bingStep]
      split
      · exact Nat.zero_le 1
      · next hlt => exact Nat.le_of_lt_succ (Nat.lt_of_not_le hlt)

theorem foldl_pointsCounter_mono (testMode : Bool) (outcomes : List SearchOutcome)
    (s : RunnerState) :
    s.pointsCounter ≤ (outcomes.foldl (bingStep testMode) s).pointsCounter := by
  induction outcomes generalizing s with
  | nil => exact Nat.le_refl _
  | cons o rest ih =>
      exact Nat.le_trans (bingStep_pointsCounter_mono testMode s o) (ih _)

theorem foldl_attempt_le_one (testMode : Bool) (outcomes : List SearchOutcome)
    (s : RunnerState) (h : s.attempt ≤ 1) :
    (outcomes.foldl (bingStep testMode) s).attempt ≤ 1 := by
  induction outcomes generalizing s with
  | nil => exact h
  | cons o rest ih => exact ih _ (bingStep_attempt_le_one testMode s o h)

/-- In test mode the loop body treats every returned total identically and
only distinguishes exceptions, so it is invariant under changing totals. -/
theorem bingStep_test_shape (s : RunnerState) (a b : SearchOutcome)
    (h : match a, b with
         | .ok _, .ok _ => True
         | .err, .err => True
         | _, _ => False) :
    bingStep true s a = bingStep true s b := by
  cases a <;> cases b <;> simp only [bingStep] <;> first | rfl | exact absurd h (by simp)

theorem foldl_test_shape (o₁ o₂ : List SearchOutcome) (h : sameShape o₁ o₂)
    (s : RunnerState) :
    o₁.foldl (bingStep true) s = o₂.foldl (bingStep true) s := by
  induction h generalizing s with
  | nil => rfl
  | cons hab _ ih =>
      simp only [List.foldl_cons]
      rw [bingStep_test_shape _ _ _ hab]
      exact ih _

theorem bingStep_noProgress_attempt_zero (s : RunnerState) (o : SearchOutcome)
    (h0 : s.attempt = 0) (hnp : noProgress s o = true) :
    bingStep false s o = { s with attempt := 1 } := by
  cases o with
  | ok p =>
      have hle : p ≤ s.pointsCounter := by simpa [noProgress] using hnp
      simp [bingStep, Nat.not_lt.mpr hle, h0]
  | err => simp [bingStep, h0]

theorem bingStep_noProgress_attempt_one (s : RunnerState) (o : SearchOutcome)
    (h1 : s.attempt = 1) (hnp : noProgress s o = true) :
    bingStep false s o = { s with attempt := 0, refreshes := s.refreshes + 1 } := by
  cases o with
  | ok p =>
      have hle : p ≤ s.pointsCounter := by simpa [noProgress] using hnp
      simp [bingStep, Nat.not_lt.mpr hle, h1]
  | err => simp [bingStep, h1]

/-! ## The per-term retry loop `bingSearch` (searches.py lines 545-636)

`bingSearch` is a `while True:` loop with an attempt counter `i` starting
at 0.  Each iteration either completes the search and returns the account
points, raises `TimeoutException`, or raises some other exception.  The
`except TimeoutException:` handler runs
`self.webdriver.proxy = self.browser.giveMeProxy()` when `i == 5` — but
the `Browser` class of src/browser.py defines no `giveMeProxy` (and no
dynamic attribute hook), so that attribute lookup raises
`AttributeError` inside the handler; an exception raised inside one
`except` clause is not caught by the sibling `except Exception` clause of
the same `try`, so it propagates out of `bingSearch`.  When `i == 10`
the timeout handler returns the current points; otherwise it sleeps and
retries with `i + 1`.  The generic handler increments `i`, returns the
current points once `i >= 10`, and retries otherwise.  We inject the
per-attempt behaviour as a function from the attempt index to a result
and run the loop with an explicit fuel; `ExitKind.stuck` marks fuel
exhaustion, and we prove it is never reached from the loop's real
initial state, which makes the embedding of the unbounded loop
faithful. -/

/-- Behaviour of one iteration of the `bingSearch` loop body, injected by
attempt index: complete and return a point total, raise
`TimeoutException`, or raise any other exception. -/
inductive AttemptResult where
  | success (points : Nat)
  | timeoutFail
  | otherFail
  deriving DecidableEq, Repr

/-- How control left a `bingSearch` run: normal completion, the
timeout-branch return at `i == 10`, the generic-error return at
`i >= 10`, the `AttributeError` that the missing `Browser.giveMeProxy`
raises out of the timeout handler at `i == 5`, or fuel exhaustion of the
model (proved unreachable). -/
inductive ExitKind where
  | success
  | timeoutAbort
  | errorAbort
  | attributeError
  | stuck
  deriving DecidableEq, Repr

/-- A failure raised rather than a completed search. -/
def AttemptResult.isFail : AttemptResult → Bool
  | .success _ => false
  | .timeoutFail => true
  | .otherFail => true

/-- Observable summary of one `bingSearch` call: how many times the loop
body ran, and how control left the loop. -/
structure BingRun where
  attempts : Nat
  exitKind : ExitKind
  deriving DecidableEq, Repr

/-- The `while True:` loop of `bingSearch` with counter `i` and attempt
index `k`.  On `TimeoutException`: `if i == 5` the handler evaluates
`self.browser.giveMeProxy()`, which does not exist on `Browser`, so the
resulting `AttributeError` propagates out of the call; `elif i == 10`
the handler returns the current points; otherwise it sleeps and retries
with `i + 1`.  On any other exception: increment `i` and return the
current points when `i >= 10`, else retry. -/
def bingSearchAux (inj : Nat → AttemptResult) :
    Nat → Nat → Nat → BingRun
  | 0, _, k => ⟨k, .stuck⟩
  | fuel + 1, i, k =>
    match inj k with
    | .success _ => ⟨k + 1, .success⟩
    | .timeoutFail =>
        if i = 5 then ⟨k + 1, .attributeError⟩
        else if i = 10 then ⟨k + 1, .timeoutAbort⟩
        else bingSearchAux inj fuel (i + 1) (k + 1)
    | .otherFail =>
        if i + 1 ≥ 10 then ⟨k + 1, .errorAbort⟩
        else bingSearchAux inj fuel (i + 1) (k + 1)

/-- One `bingSearch` call: the loop starts at `i = 0`; fuel 11 is enough
because every failed attempt increments `i` and the loop exits at
`i = 10` at the latest. -/
def bingSearch (inj : Nat → AttemptResult) : BingRun :=
  bingSearchAux inj 11 0 0

theorem bingSearchAux_not_stuck (inj : Nat → AttemptResult)
    (fuel : Nat) :
    ∀ i k, i ≤ 10 → 10 - i < fuel →
      (bingSearchAux inj fuel i k).exitKind ≠ .stuck := by
  induction fuel with
  | zero => intro i k _ hf; omega
  | succ fuel ih =>
      intro i k hi hf
      cases hinj : inj k with
      | success p => simp [bingSearchAux, hinj]
      | timeoutFail =>
          simp only [bingSearchAux, hinj]
          split
          · simp
          · split
            · simp
            · next h5 h10 => exact ih _ _ (by omega) (by omega)
      | otherFail =>
          simp only [bingSearchAux, hinj]
          split
          · simp
          · next h9 => exact ih _ _ (by omega) (by omega)

theorem bingSearchAux_attempts_le (inj : Nat → AttemptResult)
    (fuel : Nat) :
    ∀ i k, (bingSearchAux inj fuel i k).attempts ≤ k + fuel := by
  induction fuel with
  | zero => intro i k; simp [bingSearchAux]
  | succ fuel ih =>
      intro i k
      cases hinj : inj k with
      | success p =>
          simp only [bingSearchAux, hinj]
          show k + 1 ≤ k + (fuel + 1)
          omega
      | timeoutFail =>
          simp only [bingSearchAux, hinj]
          split
          · show k + 1 ≤ k + (fuel + 1)
            omega
          · split
            · show k + 1 ≤ k + (fuel + 1)
              omega
            · next h5 h10 =>
                have := ih (i + 1) (k + 1)
                omega
      | otherFail =>
          simp only [bingSearchAux, hinj]
          split
          · show k + 1 ≤ k + (fuel + 1)
            omega
          · next h9 =>
              have := ih (i + 1) (k + 1)
              omega

theorem bingSearchAux_attr_at_five (inj : Nat → AttemptResult)
    (fuel : Nat) :
    ∀ k, (∀ m, k + m < 5 → (inj (k + m)).isFail = true) →
      inj 5 = .timeoutFail → k ≤ 5 → 5 - k < fuel →
      bingSearchAux inj fuel k k = ⟨6, .attributeError⟩ := by
  induction fuel with
  | zero => intro k _ _ _ hf; omega
  | succ fuel ih =>
      intro k hfail h5 hk hf
      by_cases hk5 : k = 5
      · subst hk5
        simp [bingSearchAux, h5]
      · have hklt : k < 5 := by omega
        have hshift : ∀ m, (k + 1) + m < 5 → (inj ((k + 1) + m)).isFail = true := by
          intro m hm
          have h := hfail (m + 1) (by omega)
          have e : (k + 1) + m = k + (m + 1) := by omega
          rw [e]
          exact h
        cases hinj : inj k with
        | success p =>
            have := hfail 0 (by omega)
            rw [Nat.add_zero, hinj] at this
            simp [AttemptResult.isFail] at this
        | timeoutFail =>
            simp only [bingSearchAux, hinj]
            rw [if_neg hk5, if_neg (show ¬ k = 10 by omega)]
            exact ih (k + 1) hshift h5 (by omega) (by omega)
        | otherFail =>
            simp only [bingSearchAux, hinj]
            rw [if_neg (show ¬ k + 1 ≥ 10 by omega)]
            exact ih (k + 1) hshift h5 (by omega) (by omega)

/-! ## Claim theorems about the runner and the retry loop -/

/-- C1 (amended): for every sequence of injected failures, control leaves
`bingSearch` after at most 11 executions of its loop body and the loop
never gets stuck (a run of timeout failures that skips `i == 5` exits on
the failure raised at `i == 10`, the 11th execution; a run of non-timeout
failures exits after the 10th).  No proxy rotation ever happens: when the
first five attempts fail and the sixth raises a timeout (so the counter
`i` equals 5 there), the handler's `self.browser.giveMeProxy()` has no
such method to call and the `AttributeError` propagates out of
`bingSearch` after exactly 6 attempts.  Once `i` has reached 10, a failed
attempt returns the current point total instead of propagating the
error. -/
theorem bingSearch_bounded_retry (inj : Nat → AttemptResult) :
    (bingSearch inj).attempts ≤ 11 ∧
    (bingSearch inj).exitKind ≠ .stuck ∧
    ((∀ m, m < 5 → (inj m).isFail = true) → inj 5 = .timeoutFail →
      (bingSearch inj).exitKind = .attributeError ∧
      (bingSearch inj).attempts = 6) := by
  refine ⟨?_, ?_, ?_⟩
  · have h := bingSearchAux_attempts_le inj 11 0 0
    simpa [bingSearch] using h
  · exact bingSearchAux_not_stuck inj 11 0 0 (by omega) (by omega)
  · intro hfail h5
    have h := bingSearchAux_attr_at_five inj 11 0
      (fun m hm => by simpa using hfail m (by omega)) h5 (by omega) (by omega)
    constructor
    · simp only [bingSearch, h]
    · simp only [bingSearch, h]

/-- C1 counterexample: with a timeout on every attempt except a
non-timeout failure on the sixth (so the loop passes `i == 5` without
touching the missing proxy helper), `bingSearch` executes its loop body
11 times before returning, refuting the claimed bound of 10 attempts;
and on the all-timeout sequence the run ends in the `AttributeError`
propagating from the missing `Browser.giveMeProxy`, not in a requested
proxy rotation. -/
theorem bingSearch_claimed_policy_false :
    ¬ ((bingSearch (fun k => if k = 5 then AttemptResult.otherFail
          else AttemptResult.timeoutFail)).attempts ≤ 10) ∧
    (bingSearch (fun _ => AttemptResult.timeoutFail)).exitKind
      = ExitKind.attributeError := by
  decide

/-- Witness for the amended bounded-retry theorem: the all-timeouts
failure sequence satisfies the hypotheses of its crash conjunct and
yields the propagating `AttributeError` after exactly 6 attempts. -/
theorem bingSearch_bounded_retry_witness :
    (bingSearch (fun _ => AttemptResult.timeoutFail)).exitKind
        = ExitKind.attributeError ∧
    (bingSearch (fun _ => AttemptResult.timeoutFail)).attempts = 6 :=
  (bingSearch_bounded_retry (fun _ => AttemptResult.timeoutFail)).2.2
    (fun _ _ => rfl) rfl

/-- C6: outside test mode, a no-progress event is an exception from the
search execution or a returned total not strictly greater than the
tracked counter; after two consecutive no-progress events the runner
performs exactly one page refresh and resets the consecutive-no-progress
counter to 0, and the stored counter never exceeds 1 between iterations
(so, counting the transient increment inside an iteration, it never
exceeds 2). -/
theorem bingSearches_no_progress_policy :
    (∀ (outcomes : List SearchOutcome) (pc : Nat),
        (bingSearchesRun false outcomes pc).attempt ≤ 1) ∧
    (∀ (outcomes : List SearchOutcome) (pc : Nat) (o₁ o₂ : SearchOutcome),
        (bingSearchesRun false outcomes pc).attempt = 0 →
        noProgress (bingSearchesRun false outcomes pc) o₁ = true →
        noProgress (bingStep false (bingSearchesRun false outcomes pc) o₁) o₂ = true →
        (bingSearchesRun false (outcomes ++ [o₁, o₂]) pc).refreshes
            = (bingSearchesRun false outcomes pc).refreshes + 1 ∧
        (bingSearchesRun false (outcomes ++ [o₁, o₂]) pc).attempt = 0) := by
  constructor
  · intro outcomes pc
    exact foldl_attempt_le_one false outcomes _ (Nat.zero_le 1)
  · intro outcomes pc o₁ o₂ h0 hnp1 hnp2
    have happ : bingSearchesRun false (outcomes ++ [o₁, o₂]) pc
        = bingStep false (bingStep false (bingSearchesRun false outcomes pc) o₁) o₂ := by
      simp [bingSearchesRun, List.foldl_append]
    have e1 : bingStep false (bingSearchesRun false outcomes pc) o₁
        = { bingSearchesRun false outcomes pc with attempt := 1 } :=
      bingStep_noProgress_attempt_zero _ o₁ h0 hnp1
    rw [e1] at hnp2
    have e2 := bingStep_noProgress_attempt_one
      ({ bingSearchesRun false outcomes pc with attempt := 1 }) o₂ rfl hnp2
    rw [happ, e1, e2]
    constructor <;> rfl

/-- Witness for the no-progress policy: two consecutive exceptions from
the empty prefix trigger exactly one refresh and reset the counter. -/
theorem bingSearches_no_progress_policy_witness :
    (bingSearchesRun false ([] ++ [SearchOutcome.err, SearchOutcome.err]) 0).refreshes
        = (bingSearchesRun false [] 0).refreshes + 1 ∧
    (bingSearchesRun false ([] ++ [SearchOutcome.err, SearchOutcome.err]) 0).attempt = 0 :=
  bingSearches_no_progress_policy.2 [] 0 .err .err rfl rfl rfl

/-- C9: in test mode the point-progress check is skipped entirely, so the
runner's full behaviour (final counter, attempt counter, number of
refreshes, hence every refresh decision) is independent of the point
totals returned by the search capability: two outcome sequences with
exceptions in the same positions produce identical runs, and every
requested search is attempted since the fold consumes the whole
sequence. -/
theorem bingSearches_test_mode_independence (o₁ o₂ : List SearchOutcome)
    (pc : Nat) (h : sameShape o₁ o₂) :
    bingSearchesRun true o₁ pc = bingSearchesRun true o₂ pc :=
  foldl_test_shape o₁ o₂ h _

/-- Witness for test-mode independence: two concrete runs that differ
only in the returned totals coincide. -/
theorem bingSearches_test_mode_independence_witness :
    bingSearchesRun true [SearchOutcome.ok 5, SearchOutcome.err, SearchOutcome.ok 0] 7
      = bingSearchesRun true [SearchOutcome.ok 999, SearchOutcome.err, SearchOutcome.ok 123] 7 :=
  bingSearches_test_mode_independence _ _ 7 (by repeat constructor)

/-- C10: for every outcome sequence and every initial `pointsCounter`
argument, the value `bingSearches` returns is at least the initial
counter: the counter is only ever replaced by a strictly larger observed
total, and the per-search and campaign-level error paths return it
unchanged (the bound holds for every prefix of outcomes, hence also at a
campaign-level abort). -/
theorem bingSearches_monotone_points (testMode : Bool)
    (outcomes : List SearchOutcome) (pc : Nat) :
    pc ≤ (bingSearchesRun testMode outcomes pc).pointsCounter := by
  have h := foldl_pointsCounter_mono testMode outcomes ⟨pc, 0, 0⟩
  simpa [bingSearchesRun] using h

/-! ## The term universe and the rotation ledger (searches.py lines 29-162
and `getCryptoList`, lines 638-657)

`Searches.__init__` builds the full universe `CRYPTO_SEARCH_TERMS` once,
as the concatenation over the three coin-name lists of, per term, a basic
`"{term} news {search_filters}"` entry followed by one
`"{term} {source} {search_filters}"` entry per trusted news source.
`getCryptoList` keeps the mutable ledger `remaining_terms`, resetting it
to a copy of the universe when it is empty, then popping
`min(wordsCount, len(remaining_terms))` terms at indices drawn by
`random.randrange`. -/

/-- searches.py lines 29-42: trusted news sources. -/
def NEWS_SOURCES : List String :=
  ["CoinDesk", "U.Today", "Decrypt", "Bankless", "BeInCrypto", "TheBlock",
   "Bitcoin Magazine", "Blockworks", "Coin Bureau", "The Defiant",
   "reddit cryptocurrency", "crypto twitter"]

/-- searches.py lines 45-63. -/
def MAJOR_CRYPTOS : List String :=
  ["bitcoin", "ethereum", "solana", "link", "tao", "ondo", "optimism",
   "base crypto", "ethereum layer 2 networks", "arbitrum", "polygon",
   "cardano", "hbar", "ton", "inj crypto", "kaspa crypto", "xrp crypto"]

/-- searches.py lines 65-90. -/
def OTHER_CRYPTOS : List String :=
  ["om mantra crypto", "sui crypto", "aero crypto", "ath crypto",
   "ldo crypto", "jto crypto", "pol crypto", "gno crypto", "hype crypto",
   "octa crypto", "io crypto", "cow crypto", "trac crypto", "aave crypto",
   "fet crypto", "render crypto", "orai crypto", "prime crypto",
   "virtual crypto", "akt crypto", "stx crypto", "corechain crypto",
   "uni crypto", "sei crypto"]

/-- searches.py lines 92-126. -/
def MEME_COINS : List String :=
  ["HarryPotterObamaSonic10Inu crypto", "mog crypto", "op crypto",
   "mpl crypto", "syrup crypto", "acx crypto", "brett crypto",
   "fartcoin crypto", "butthole crypto", "retardio crypto", "naka crypto",
   "alph crypto", "mkr crypto", "apu crypto", "rio crypto", "dione crypto",
   "tia crypto", "lockin crypto", "imx crypto", "popcat crypto",
   "mini crypto", "usa crypto", "trias crypto", "goat crypto",
   "asscoin crypto", "hnt crypto", "SPX crypto", "GIGA crypto",
   "zro crypto", "cpool crypto", "uni crypto", "sei crypto", "scf crypto"]

/-- searches.py lines 134-143: the `-site:` exclusion clause appended to
every generated term (adjacent Python string literals concatenate). -/
def excluded_domains : String :=
  "-site:*coinmarketcap.com -site:*coingecko.com -site:*crypto.com " ++
  "-site:*etoro.com -site:*tradingview.com -site:*binance.com " ++
  "-site:*coinbase.com -site:*kraken.com -site:*gemini.com " ++
  "-site:*bitfinex.com -site:*kucoin.com -site:*huobi.com " ++
  "-site:*okx.com -site:*bybit.com -site:*gate.io -site:*mexc.com " ++
  "-site:*aws.amazon.com -site:*cloud.google.com -site:*azure.microsoft.com " ++
  "-site:*github.com -site:*stackoverflow.com -site:*wikipedia.org " ++
  "-site:*coincodex.com -site:*livecoinwatch.com -site:*yahoo.com/quote "

/-- searches.py lines 146-150. -/
def search_filters : String :=
  "language:english freshness:30 " ++
  "-price -prediction -chart -trade -buy -sell -convert " ++
  "-tutorial -course -documentation -quote -market -exchange " ++ excluded_domains

/-- searches.py lines 132-157, `add_with_sources`: per term, the basic
filtered entry followed by one entry per news source. -/
def add_with_sources (term_list : List String) : List String :=
  term_list.flatMap (fun term =>
    (term ++ " news " ++ search_filters) ::
      NEWS_SOURCES.map (fun source => term ++ " " ++ source ++ " " ++ search_filters))

/-- searches.py lines 129 and 160-162: the full term universe. -/
def CRYPTO_SEARCH_TERMS : List String :=
  add_with_sources MAJOR_CRYPTOS ++ add_with_sources OTHER_CRYPTOS ++
    add_with_sources MEME_COINS

/-! ### String primitives used by the extractor

Character-level models of the Python operations the extractor relies on:
substring containment (`pat in s`), locating an occurrence (`str.split`),
percent-decoding (`urllib.parse.unquote`) and host extraction
(`urllib.parse.urlparse(...).netloc`). -/

/-- Whether `pat` occurs at the head of `s`. -/
def isSubAt : List Char → List Char → Bool
  | [], _ => true
  | _ :: _, [] => false
  | p :: ps, c :: cs => p == c && isSubAt ps cs

/-- Whether `pat` occurs anywhere in `s`: Python's `pat in s`. -/
def containsSub (pat : List Char) : List Char → Bool
  | [] => pat.isEmpty
  | c :: cs => isSubAt pat (c :: cs) || containsSub pat cs

/-- Python's `pat in s` on strings. -/
def strContains (s pat : String) : Bool :=
  containsSub pat.toList s.toList

/-- Index of the first occurrence of `pat`, when there is one: the
position `str.find`/`str.split` would cut at. -/
def findSub (pat : List Char) : List Char → Option Nat
  | [] => if pat.isEmpty then some 0 else none
  | c :: cs =>
      if isSubAt pat (c :: cs) then some 0
      else (findSub pat cs).map (· + 1)

/-- The `encoded_url` of searches.py line 303,
`url.split("u=a1")[1].split("&")[0]`: the text between the first
occurrence of `u=a1` and the next occurrence (or the end), truncated at
the first `&`. -/
def redirectPayload (url : String) : String :=
  let pat := "u=a1".toList
  match findSub pat url.toList with
  | none => ""
  | some i =>
      let after := url.toList.drop (i + pat.length)
      let seg :=
        match findSub pat after with
        | none => after
        | some j => after.take j
      ⟨seg.takeWhile (fun c => !(c == '&'))⟩

/-- Value of a hexadecimal digit. -/
def hexVal (c : Char) : Option Nat :=
  if '0' ≤ c ∧ c ≤ '9' then some (c.toNat - '0'.toNat)
  else if 'a' ≤ c ∧ c ≤ 'f' then some (c.toNat - 'a'.toNat + 10)
  else if 'A' ≤ c ∧ c ≤ 'F' then some (c.toNat - 'A'.toNat + 10)
  else none

/-- Percent-decoding of `urllib.parse.unquote`: each valid `%XX` escape
becomes the character with code `XX`; an invalid escape is kept
verbatim. -/
def unquoteL : List Char → List Char
  | [] => []
  | '%' :: a :: b :: rest =>
      match hexVal a, hexVal b with
      | some x, some y => Char.ofNat (16 * x + y) :: unquoteL rest
      | _, _ => '%' :: unquoteL (a :: b :: rest)
  | c :: rest => c :: unquoteL rest

/-- Percent-decoding on strings. -/
def unquote (s : String) : String :=
  ⟨unquoteL s.toList⟩

/-- ASCII lowercasing of one character, as Python `str.lower` acts on the
characters occurring here. -/
def charToLower (c : Char) : Char :=
  if 'A' ≤ c ∧ c ≤ 'Z' then Char.ofNat (c.toNat + 32) else c

/-- Python `str.lower`. -/
def strToLower (s : String) : String :=
  ⟨s.toList.map charToLower⟩

/-- Python whitespace for `str.strip`. -/
def isPySpace (c : Char) : Bool :=
  c == ' ' || c == '\t' || c == '\n' || c == '\r' || c == '\x0b' || c == '\x0c'

/-- Python `str.strip()`: drop leading and trailing whitespace. -/
def strTrim (s : String) : String :=
  ⟨((s.toList.dropWhile isPySpace).reverse.dropWhile isPySpace).reverse⟩

/-- Python `str.replace(old, new)` on character lists: replace every
non-overlapping occurrence left to right.  The fuel argument (one unit
per consumed character; callers pass the list's length) only realises
termination: every step consumes at least one character for the non-empty
patterns used here. -/
def replaceLAux (old new : List Char) : Nat → List Char → List Char
  | 0, l => l
  | fuel + 1, l =>
      match l with
      | [] => []
      | c :: cs =>
          if isSubAt old l then new ++ replaceLAux old new fuel (l.drop old.length)
          else c :: replaceLAux old new fuel cs

/-- Python `str.replace(old, new)`. -/
def strReplace (s old new : String) : String :=
  ⟨replaceLAux old.toList new.toList s.toList.length s.toList⟩

/-- Characters allowed in a URL scheme. -/
def schemeChar (c : Char) : Bool :=
  c.isAlphanum || c == '+' || c == '-' || c == '.'

/-- Scheme removal of `urlparse`: when the first colon sits after a
non-empty run of scheme characters starting with a letter, everything
through the colon is the scheme and is dropped. -/
def stripSchemeL (l : List Char) : List Char :=
  match l.findIdx? (fun c => c == ':') with
  | none => l
  | some i =>
      if 0 < i ∧ (l.take i).all schemeChar = true ∧
          (l.take 1).all Char.isAlpha = true then
        l.drop (i + 1)
      else l

/-- Host extraction of `urlparse(url).netloc`: after removing the scheme,
a URL whose remainder starts with `//` has as netloc the characters up to
the next `/`, `?` or `#`; anything else has an empty netloc. -/
def netloc (url : String) : String :=
  match stripSchemeL url.toList with
  | '/' :: '/' :: rest =>
      ⟨rest.takeWhile (fun c => !(c == '/' || c == '?' || c == '#'))⟩
  | _ => ""

/-! ### The result extractor `extractSearchResults`
(searches.py lines 266-362) -/

/-- The anchor of a result card: `result.find("a")` with its
`get("href", "")` (a missing attribute defaults to the empty string) and
`get_text()`. -/
structure Anchor where
  href : String
  text : String
  deriving DecidableEq, Repr

/-- A parsed `li.b_algo` result card: `find("a")` may yield no anchor,
and `find("div", class_="b_caption")` may yield no snippet element; when
it does, the card carries the `get_text()` of each of its `p` tags. -/
structure ResultCard where
  anchor : Option Anchor
  caption : Option (List String)
  deriving DecidableEq, Repr

/-- A result record as built at searches.py lines 333-339 (the timestamp
field, drawn from the wall clock, is outside the model). -/
structure SearchResultRecord where
  title : String
  url : String
  content : String
  source : String
  deriving DecidableEq, Repr

/-- searches.py lines 274-281: the static blocked-domain list checked
against decoded URLs. -/
def blocked_domains : List String :=
  ["coinmarketcap.com", "coingecko.com", "crypto.com", "etoro.com",
   "tradingview.com", "binance.com", "coinbase.com", "kraken.com",
   "gemini.com", "bitfinex.com", "kucoin.com", "huobi.com", "okx.com",
   "bybit.com", "gate.io", "mexc.com", "livecoinwatch.com",
   "yahoo.com/quote"]

/-- searches.py lines 299-309: the domain a result is judged by.  For a
`bing.com/ck/a` redirect wrapper carrying a `u=a1` parameter, the
embedded target is cut out, percent-decoded and its host taken;
otherwise the host of the href itself.  Either way the host is
lowercased. -/
def extractDomain (url : String) : String :=
  if strContains url "bing.com/ck/a" && strContains url "u=a1" then
    strToLower (netloc (unquote (redirectPayload url)))
  else
    strToLower (netloc url)

/-- searches.py lines 319-322: the joined snippet text of the caption's
`p` tags (empty when there is no caption element). -/
def captionText : Option (List String) → String
  | none => ""
  | some ps =>
      String.intercalate " " ((ps.filter (fun p => p ≠ "")).map strTrim)

/-- searches.py lines 324-331: source normalization.  When a trusted
source name occurs (case-insensitively) in the title, the first such name
is stripped from the title (case-sensitive replacement, double spaces
collapsed once, then trimmed) and recorded as a structured source;
otherwise the domain is the source. -/
def normalizeSource (title domain : String) : String × String :=
  match NEWS_SOURCES.find? (fun s => strContains (strToLower title) (strToLower s)) with
  | some s =>
      (strTrim (strReplace (strReplace title s "") "  " " "),
        "Source: " ++ s ++ " (" ++ domain ++ ")")
  | none => (title, "Source: " ++ domain)

/-- The record appended for an accepted card (searches.py lines 316-339),
from its anchor, caption and judged domain. -/
def mkRecord (a : Anchor) (cap : Option (List String)) (domain : String) :
    SearchResultRecord :=
  ⟨(normalizeSource (strTrim a.text) domain).1, a.href, captionText cap,
    (normalizeSource (strTrim a.text) domain).2⟩

/-- Processing of one result card (searches.py lines 287-344): skip when
there is no anchor, when the href was already seen, or when any blocked
domain occurs in the judged domain; otherwise build the record. -/
def processCard (seen : List String) (card : ResultCard) :
    Option SearchResultRecord :=
  match card.anchor with
  | none => none
  | some a =>
      if a.href ∈ seen then none
      else if blocked_domains.any (fun b => strContains (extractDomain a.href) b) then
        none
      else some (mkRecord a card.caption (extractDomain a.href))

/-- The `for result in main_results` loop with its `processed >= 8` break
(searches.py lines 283-348): accepted records are appended in page order,
their URLs added to the seen set, and the counter `processed` increments
only on acceptance. -/
def extractLoop (seen : List String) (processed : Nat) :
    List ResultCard → List SearchResultRecord × List String
  | [] => ([], seen)
  | card :: rest =>
      if processed ≥ 8 then ([], seen)
      else
        match processCard seen card with
        | none => extractLoop seen processed rest
        | some r =>
            let res := extractLoop (r.url :: seen) (processed + 1) rest
            (r :: res.1, res.2)

/-- `extractSearchResults` on a parsed page: the `results` list of the
returned dict (status `success`, `total_found` its length) and the
updated seen-URL set.  The error path of the outer `try` is unreachable
in the pure model. -/
def extractSearchResults (seen : List String) (cards : List ResultCard) :
    List SearchResultRecord × List String :=
  extractLoop seen 0 cards

/-- `self.seen_urls.add(url)`: set insertion on the seen-URL set. -/
def seenAdd (seen : List String) (u : String) : List String :=
  List.insert u seen

/-! ### The seen-URL store loader `_load_seen_urls`
(searches.py lines 239-248)

The loader opens `seen_urls.json` when it exists and builds
`set(json.load(f))`; a missing file yields the empty set directly, and
any exception — in particular a `json.JSONDecodeError` on corrupt
content — is caught and also yields the empty set.  The only content the
loader can accept is what `_save_seen_urls` writes: a JSON array of
strings; we model `json.load` by a strict character-level parser for
exactly that shape, returning `none` where Python raises. -/

/-- Backing-store state of the seen-URLs file: absent, or present with
some text content. -/
inductive SeenUrlsFile where
  | missing
  | withContent (content : String)
  deriving DecidableEq, Repr

/-- Leading JSON whitespace removal. -/
def skipWs : List Char → List Char
  | [] => []
  | c :: cs =>
      if c == ' ' || c == '\n' || c == '\t' || c == '\r' then skipWs cs
      else c :: cs

/-- Body of a JSON string after its opening quote: content characters and
the basic escapes, up to the closing quote; `none` on anything
malformed. -/
def parseStringBody (acc : List Char) : List Char → Option (String × List Char)
  | [] => none
  | '"' :: rest => some (⟨acc.reverse⟩, rest)
  | '\\' :: e :: rest =>
      match e with
      | '"' => parseStringBody ('"' :: acc) rest
      | '\\' => parseStringBody ('\\' :: acc) rest
      | '/' => parseStringBody ('/' :: acc) rest
      | 'n' => parseStringBody ('\n' :: acc) rest
      | 't' => parseStringBody ('\t' :: acc) rest
      | 'r' => parseStringBody ('\r' :: acc) rest
      | _ => none
  | '\\' :: [] => none
  | c :: rest => parseStringBody (c :: acc) rest

/-- Comma-separated JSON strings up to the closing bracket; the fuel,
passed as the input length, realises termination (each element consumes
at least one character). -/
def parseItems : Nat → List Char → List String → Option (List String)
  | 0, _, _ => none
  | fuel + 1, cs, acc =>
      match cs with
      | '"' :: rest =>
          match parseStringBody [] rest with
          | none => none
          | some (str, after) =>
              match skipWs after with
              | ',' :: tail => parseItems fuel (skipWs tail) (str :: acc)
              | ']' :: tail =>
                  if skipWs tail = [] then some (str :: acc).reverse else none
              | _ => none
      | _ => none

/-- `json.load` restricted to the shape `_save_seen_urls` writes: a JSON
array of strings; `none` models the raised `JSONDecodeError` on anything
else. -/
def parseJsonStringList (s : String) : Option (List String) :=
  match skipWs s.toList with
  | '[' :: rest =>
      match skipWs rest with
      | ']' :: tail => if skipWs tail = [] then some [] else none
      | other => parseItems (s.toList.length + 1) other []
  | _ => none

/-- `_load_seen_urls` (searches.py lines 239-248): the empty set when the
file is missing, the parsed set on well-formed content, and — through the
`except` arm — the empty set again when parsing raises. -/
def load_seen_urls (fs : SeenUrlsFile) : List String :=
  match fs with
  | .missing => []
  | .withContent c =>
      match parseJsonStringList c with
      | none => []
      | some urls => urls.dedup

/-- The term-rotation state of a `Searches` object: the constant universe
field `CRYPTO_SEARCH_TERMS` and the mutable ledger `remaining_terms`. -/
structure TermState where
  cryptoSearchTerms : List String
  remaining_terms : List String
  deriving DecidableEq, Repr

/-- The selection loop of `getCryptoList` (searches.py lines 647-651):
`n` iterations, each popping the element at index
`random.randrange(len(remaining))`, realised by the injected choice
sequence `rand` reduced modulo the current length.  The empty-list guard
is unreachable for the loop counts the code uses (`min` keeps `n` at most
the length) but makes the function total. -/
def selectLoop (rand : Nat → Nat) : Nat → Nat → List String → List String × List String
  | _, 0, remaining => ([], remaining)
  | step, n + 1, remaining =>
      if remaining = [] then ([], remaining)
      else
        let idx := rand step % remaining.length
        let rest := selectLoop rand (step + 1) n (remaining.eraseIdx idx)
        (remaining.getD idx "" :: rest.1, rest.2)

/-- `getCryptoList` (searches.py lines 638-657): reset the ledger to the
full universe when it is empty, then pop
`min(wordsCount, len(remaining_terms))` randomly chosen terms; returns
the selected terms and the updated object state. -/
def getCryptoList (rand : Nat → Nat) (st : TermState) (wordsCount : Nat) :
    List String × TermState :=
  let rem0 := if st.remaining_terms = [] then st.cryptoSearchTerms
              else st.remaining_terms
  let res := selectLoop rand 0 (min wordsCount rem0.length) rem0
  (res.1, { st with remaining_terms := res.2 })

theorem perm_getD_cons_eraseIdx (l : List String) (i : Nat) (h : i < l.length) :
    List.Perm l (l.getD i "" :: l.eraseIdx i) := by
  rw [List.getD_eq_getElem l "" h]
  exact (List.perm_cons_erase (List.getElem_mem h)).trans
    (List.Perm.cons _ (List.erase_getElem h))

theorem selectLoop_perm (rand : Nat → Nat) :
    ∀ (n step : Nat) (rem : List String),
      List.Perm ((selectLoop rand step n rem).1 ++ (selectLoop rand step n rem).2) rem := by
  intro n
  induction n with
  | zero => intro step rem; simp [selectLoop]
  | succ n ih =>
      intro step rem
      by_cases h : rem = []
      · subst h; simp [selectLoop]
      · have hlen : 0 < rem.length := List.length_pos.mpr h
        have hidx : rand step % rem.length < rem.length := Nat.mod_lt _ hlen
        simp only [selectLoop, if_neg h, List.cons_append]
        exact (List.Perm.cons _ (ih (step + 1) (rem.eraseIdx _))).trans
          (perm_getD_cons_eraseIdx rem _ hidx).symm

theorem selectLoop_drains (rand : Nat → Nat) :
    ∀ (n step : Nat) (rem : List String), rem.length ≤ n →
      (selectLoop rand step n rem).2 = [] := by
  intro n
  induction n with
  | zero =>
      intro step rem hle
      have : rem = [] := List.length_eq_zero.mp (Nat.le_zero.mp hle)
      subst this; rfl
  | succ n ih =>
      intro step rem hle
      by_cases h : rem = []
      · subst h; simp [selectLoop]
      · have hlen : 0 < rem.length := List.length_pos.mpr h
        have hidx : rand step % rem.length < rem.length := Nat.mod_lt _ hlen
        simp only [selectLoop, if_neg h]
        apply ih (step + 1)
        have := List.length_eraseIdx_add_one hidx
        omega

/-- C4: each `getCryptoList` call removes from the ledger exactly the
terms it returns: the returned terms together with the new ledger are a
permutation of the ledger the call started from (after the auto-reset
that replaces an empty ledger by the full universe), so the ledger size
plus the number of terms handed out this cycle is conserved, and a call
that starts on an empty ledger works on the full universe again. -/
theorem getCryptoList_ledger_conservation (rand : Nat → Nat)
    (st : TermState) (wordsCount : Nat) :
    List.Perm
      ((getCryptoList rand st wordsCount).1 ++
        (getCryptoList rand st wordsCount).2.remaining_terms)
      (if st.remaining_terms = [] then st.cryptoSearchTerms
       else st.remaining_terms) ∧
    (getCryptoList rand st wordsCount).1.length +
        (getCryptoList rand st wordsCount).2.remaining_terms.length
      = (if st.remaining_terms = [] then st.cryptoSearchTerms
         else st.remaining_terms).length := by
  constructor
  · exact selectLoop_perm rand _ 0 _
  · have h := (selectLoop_perm rand
      (min wordsCount
        (if st.remaining_terms = [] then st.cryptoSearchTerms
         else st.remaining_terms).length) 0
      (if st.remaining_terms = [] then st.cryptoSearchTerms
       else st.remaining_terms)).length_eq
    simpa [getCryptoList, List.length_append] using h

/-- C8: when the requested count exceeds the universe size and the ledger
is empty at the start of the call (so it auto-resets to the full
universe), `getCryptoList` returns the whole universe once — a
permutation of it, fewer terms than requested — and leaves the ledger
empty, rather than looping to produce more terms. -/
theorem getCryptoList_exhaustion (rand : Nat → Nat) (st : TermState) (n : Nat)
    (hempty : st.remaining_terms = [])
    (hn : st.cryptoSearchTerms.length < n) :
    List.Perm (getCryptoList rand st n).1 st.cryptoSearchTerms ∧
    (getCryptoList rand st n).2.remaining_terms = [] ∧
    (getCryptoList rand st n).1.length < n := by
  have hle : st.cryptoSearchTerms.length ≤ min n st.cryptoSearchTerms.length := by
    omega
  have h1 : (getCryptoList rand st n).1
      = (selectLoop rand 0 (min n st.cryptoSearchTerms.length)
          st.cryptoSearchTerms).1 := by
    simp [getCryptoList, hempty]
  have h2' : (getCryptoList rand st n).2.remaining_terms
      = (selectLoop rand 0 (min n st.cryptoSearchTerms.length)
          st.cryptoSearchTerms).2 := by
    simp [getCryptoList, hempty]
  have h2 : (selectLoop rand 0 (min n st.cryptoSearchTerms.length)
      st.cryptoSearchTerms).2 = [] :=
    selectLoop_drains rand _ 0 _ hle
  have hperm := selectLoop_perm rand (min n st.cryptoSearchTerms.length) 0
    st.cryptoSearchTerms
  rw [h2, List.append_nil] at hperm
  refine ⟨by rw [h1]; exact hperm, by rw [h2']; exact h2, ?_⟩
  rw [h1]
  have := hperm.length_eq
  omega

/-! ### Extractor lemmas and claims -/

theorem extractLoop_length (cards : List ResultCard) :
    ∀ (seen : List String) (processed : Nat), processed ≤ 8 →
      (extractLoop seen processed cards).1.length + processed ≤ 8 := by
  induction cards with
  | nil => intro seen p hp; simpa [extractLoop] using hp
  | cons card rest ih =>
      intro seen p hp
      by_cases h8 : p ≥ 8
      · simp [extractLoop, h8]; omega
      · cases hpc : processCard seen card with
        | none =>
            simp only [extractLoop, if_neg h8, hpc]
            exact ih seen p hp
        | some r =>
            simp only [extractLoop, if_neg h8, hpc, List.length_cons]
            have := ih (r.url :: seen) (p + 1) (by omega)
            omega

/-- C2: for every parsed results page, `extractSearchResults` returns at
most 8 result records, no matter how many well-formed result cards the
page contains. -/
theorem extractSearchResults_result_cap (seen : List String)
    (cards : List ResultCard) :
    (extractSearchResults seen cards).1.length ≤ 8 := by
  have h := extractLoop_length cards seen 0 (by omega)
  simpa [extractSearchResults] using h

theorem processCard_some_inv (seen : List String) (card : ResultCard)
    (r : SearchResultRecord) (h : processCard seen card = some r) :
    ∃ a, card.anchor = some a ∧ r.url = a.href ∧ a.href ∉ seen ∧
      blocked_domains.any (fun b => strContains (extractDomain a.href) b)
        = false := by
  cases hca : card.anchor with
  | none => simp [processCard, hca] at h
  | some a =>
      simp only [processCard, hca] at h
      split at h
      · exact absurd h (by simp)
      · next hmem =>
          split at h
          · exact absurd h (by simp)
          · next hblk =>
              refine ⟨a, rfl, ?_, hmem, by simpa using hblk⟩
              have hr := Option.some.inj h
              rw [← hr]
              rfl

theorem processCard_mem_none (seen : List String) (card : ResultCard)
    (a : Anchor) (hca : card.anchor = some a) (hmem : a.href ∈ seen) :
    processCard seen card = none := by
  simp [processCard, hca, hmem]

theorem extractSingle_none (seen : List String) (card : ResultCard)
    (h : processCard seen card = none) :
    extractSearchResults seen [card] = ([], seen) := by
  simp [extractSearchResults, extractLoop, h]

theorem extractSingle_some (seen : List String) (card : ResultCard)
    (r : SearchResultRecord) (h : processCard seen card = some r) :
    extractSearchResults seen [card] = ([r], r.url :: seen) := by
  simp [extractSearchResults, extractLoop, h]

/-- C3: after adding a URL to the seen set a membership check of it is
true, and running the same result card through `extractSearchResults` a
second time (against the seen set the first run produced) yields it in
the combined output exactly once: the first run added its URL to the
seen set and the second run filters it out. -/
theorem seen_url_dedup :
    (∀ (seen : List String) (u : String), u ∈ seenAdd seen u) ∧
    (∀ (seen : List String) (card : ResultCard) (r : SearchResultRecord),
      (extractSearchResults seen [card]).1 = [r] →
      (extractSearchResults (extractSearchResults seen [card]).2 [card]).1 = [] ∧
      ((extractSearchResults seen [card]).1 ++
          (extractSearchResults (extractSearchResults seen [card]).2 [card]).1).count r
        = 1) := by
  constructor
  · intro seen u
    exact List.mem_insert_self u seen
  · intro seen card r h1
    cases hpc : processCard seen card with
    | none =>
        rw [extractSingle_none seen card hpc] at h1
        exact absurd h1 (by simp)
    | some r' =>
        rw [extractSingle_some seen card r' hpc] at h1
        have hrr : r' = r := by simpa using h1
        subst hrr
        obtain ⟨a, hca, hurl, _, _⟩ := processCard_some_inv seen card r' hpc
        have hskip : processCard (r'.url :: seen) card = none :=
          processCard_mem_none _ card a hca (by rw [← hurl]; exact List.mem_cons_self _ _)
        rw [extractSingle_some seen card r' hpc,
          extractSingle_none (r'.url :: seen) card hskip]
        simp

theorem extractLoop_not_blocked (cards : List ResultCard) :
    ∀ (seen : List String) (p : Nat) (r : SearchResultRecord),
      r ∈ (extractLoop seen p cards).1 →
      blocked_domains.all (fun b => ! strContains (extractDomain r.url) b)
        = true := by
  induction cards with
  | nil => intro seen p r hr; simp [extractLoop] at hr
  | cons card rest ih =>
      intro seen p r hr
      by_cases h8 : p ≥ 8
      · simp [extractLoop, h8] at hr
      · cases hpc : processCard seen card with
        | none =>
            simp only [extractLoop, if_neg h8, hpc] at hr
            exact ih seen p r hr
        | some r' =>
            simp only [extractLoop, if_neg h8, hpc, List.mem_cons] at hr
            rcases hr with rfl | hmem
            · obtain ⟨a, _, hurl, _, hblk⟩ := processCard_some_inv seen card r hpc
              rw [List.all_eq_true]
              intro b hb
              have hfalse : strContains (extractDomain a.href) b = false := by
                by_contra hcon
                have htrue : strContains (extractDomain a.href) b = true := by
                  cases hx : strContains (extractDomain a.href) b
                  · exact absurd hx hcon
                  · rfl
                have : blocked_domains.any
                    (fun b => strContains (extractDomain a.href) b) = true :=
                  List.any_eq_true.mpr ⟨b, hb, htrue⟩
                rw [this] at hblk
                cases hblk
              rw [hurl, hfalse]
              rfl
            · exact ih _ _ r hmem

/-- C5: a `bing.com/ck/a` redirect-wrapper href carrying a `u=a1`
parameter is judged by the percent-decoded embedded target's host, not by
the visible host; a card whose judged domain contains any blocked domain
as a substring is skipped by the card processor, and consequently no
record whose judged domain contains a blocked domain ever appears in the
extractor's output. -/
theorem redirect_blocklist :
    (∀ url : String,
      strContains url "bing.com/ck/a" = true → strContains url "u=a1" = true →
      extractDomain url = strToLower (netloc (unquote (redirectPayload url)))) ∧
    (∀ (seen : List String) (a : Anchor) (cap : Option (List String)) (b : String),
      b ∈ blocked_domains → strContains (extractDomain a.href) b = true →
      processCard seen (ResultCard.mk (some a) cap) = none) ∧
    (∀ (seen : List String) (cards : List ResultCard) (r : SearchResultRecord),
      r ∈ (extractSearchResults seen cards).1 →
      blocked_domains.all (fun b => ! strContains (extractDomain r.url) b)
        = true) := by
  refine ⟨?_, ?_, ?_⟩
  · intro url h1 h2
    simp [extractDomain, h1, h2]
  · intro seen a cap b hb hc
    have hany : blocked_domains.any
        (fun x => strContains (extractDomain a.href) x) = true :=
      List.any_eq_true.mpr ⟨b, hb, hc⟩
    simp [processCard, hany]
  · intro seen cards r hr
    exact extractLoop_not_blocked cards seen 0 r hr

/-- Witness for the redirect/blocklist theorem: a redirect URL whose
visible host is `www.bing.com` but whose decoded target host is
`www.coingecko.com` is skipped, even against an empty seen set. -/
theorem redirect_blocklist_witness :
    processCard []
      ⟨some ⟨"https://www.bing.com/ck/a?!&&p=abc&u=a1https%3a%2f%2fwww.coingecko.com%2fen%2fcoins%2fbitcoin&ntb=1", "x"⟩, none⟩ = none ∧
    strToLower (netloc "https://www.bing.com/ck/a?!&&p=abc&u=a1https%3a%2f%2fwww.coingecko.com%2fen%2fcoins%2fbitcoin&ntb=1")
      = "www.bing.com" ∧
    extractDomain "https://www.bing.com/ck/a?!&&p=abc&u=a1https%3a%2f%2fwww.coingecko.com%2fen%2fcoins%2fbitcoin&ntb=1"
      = "www.coingecko.com" :=
  ⟨redirect_blocklist.2.1 [] ⟨"https://www.bing.com/ck/a?!&&p=abc&u=a1https%3a%2f%2fwww.coingecko.com%2fen%2fcoins%2fbitcoin&ntb=1", "x"⟩
      none "coingecko.com" (by decide) (by rfl),
    by rfl, by rfl⟩

/-- Witness for the dedup theorem: a concrete card extracted against the
empty seen set appears exactly once across the two runs, and its URL is
in the seen set afterwards. -/
theorem seen_url_dedup_witness :
    ("https://example.com/story" ∈ seenAdd [] "https://example.com/story") ∧
    ((extractSearchResults
        (extractSearchResults []
          [⟨some ⟨"https://example.com/story", "Example title"⟩, some ["Snippet"]⟩]).2
        [⟨some ⟨"https://example.com/story", "Example title"⟩, some ["Snippet"]⟩]).1 = [] ∧
      ((extractSearchResults []
          [⟨some ⟨"https://example.com/story", "Example title"⟩, some ["Snippet"]⟩]).1 ++
        (extractSearchResults
          (extractSearchResults []
            [⟨some ⟨"https://example.com/story", "Example title"⟩, some ["Snippet"]⟩]).2
          [⟨some ⟨"https://example.com/story", "Example title"⟩, some ["Snippet"]⟩]).1).count
        ⟨"Example title", "https://example.com/story", "Snippet", "Source: example.com"⟩
      = 1) :=
  ⟨seen_url_dedup.1 [] "https://example.com/story",
    seen_url_dedup.2 []
      ⟨some ⟨"https://example.com/story", "Example title"⟩, some ["Snippet"]⟩
      ⟨"Example title", "https://example.com/story", "Snippet", "Source: example.com"⟩
      (by rfl)⟩

/-- C7: loading the seen-URL store is total and fail-open: a missing
backing file yields the empty set, and content the parse rejects
(a corrupt backing store) also yields the empty set, so no backing-store
state ever surfaces an error to the caller. -/
theorem load_seen_urls_fail_open :
    load_seen_urls .missing = [] ∧
    (∀ c : String, parseJsonStringList c = none →
      load_seen_urls (.withContent c) = []) := by
  constructor
  · rfl
  · intro c hc
    simp [load_seen_urls, hc]

/-- Witness for the fail-open loader: the concrete corrupt content
`not json` is rejected by the parser and loads as the empty set, while a
well-formed array still parses (so the corrupt case is not vacuous). -/
theorem load_seen_urls_fail_open_witness :
    parseJsonStringList "not json" = none ∧
    load_seen_urls (.withContent "not json") = [] ∧
    load_seen_urls (.withContent "[\"https://a.example\", \"https://b.example\"]")
      = ["https://a.example", "https://b.example"] :=
  ⟨by rfl, load_seen_urls_fail_open.2 "not json" (by rfl), by rfl⟩

/-- Witness for the exhaustion theorem: a three-term universe with an
empty ledger, asked for five terms, hands out exactly the universe and
leaves the ledger empty. -/
theorem getCryptoList_exhaustion_witness :
    List.Perm
      (getCryptoList (fun _ => 0)
        ⟨["termA", "termB", "termC"], []⟩ 5).1
      ["termA", "termB", "termC"] ∧
    (getCryptoList (fun _ => 0)
        ⟨["termA", "termB", "termC"], []⟩ 5).2.remaining_terms = [] ∧
    (getCryptoList (fun _ => 0)
        ⟨["termA", "termB", "termC"], []⟩ 5).1.length < 5 :=
  getCryptoList_exhaustion (fun _ => 0)
    ⟨["termA", "termB", "termC"], []⟩ 5 rfl (by decide)

end Searches
